import Mathlib

/-!
Shallow embedding of the audio-reactive frame-rendering pipeline of the
`visualizer` repository (src/audio_processor.py, src/beat_detector.py,
src/visualizer.py, src/effects.py, src/config.py), together with proofs of
the spec's claims about it.

Real-valued quantities of the Python code are modelled exactly as rationals
(ℚ); the trigonometric formulas of the rotation modes are modelled over ℝ.
Python's float `%` is modelled by `pymod` (result has the sign of the
divisor), and Python's `int(...)` truncation toward zero by `pyint`.
-/

namespace Visualizer

/-- Maximum entry of a list of rationals (`np.max` over a nonempty array;
the `[]` case is a don't-care default, every use site is nonempty). -/
def listMax : List ℚ → ℚ
  | [] => 0
  | [a] => a
  | a :: b :: rest => max a (listMax (b :: rest))

/-- Arithmetic mean (`np.mean`); the empty case yields `0/0 = 0`. -/
def mean (l : List ℚ) : ℚ := l.sum / (l.length : ℚ)

/-- Python float `x % m`: the remainder with the sign of the divisor,
`x - m * floor (x / m)`. -/
def pymod (x m : ℚ) : ℚ := x - m * ⌊x / m⌋

/-- Python `int(...)` on a rational: truncation toward zero. -/
def pyint (q : ℚ) : ℤ := if 0 ≤ q then ⌊q⌋ else ⌈q⌉

/-- The magnitude spectrogram computed once by `AudioProcessor._calculate_stft`:
`freqs` is the ascending frequency per bin (`self.frequencies`), `cols` holds
one column (all frequency bins) per time frame (`self.magnitude[:, j]`).
An STFT output always has at least one bin and one frame, and every column
has one entry per frequency bin. -/
structure Spectrogram where
  freqs : List ℚ
  cols : List (List ℚ)
  freqs_ne : freqs ≠ []
  cols_ne : cols ≠ []
  cols_len : ∀ c ∈ cols, c.length = freqs.length

/-- The number of time frames, `self.magnitude.shape[1]`. -/
def Spectrogram.numFrames (sp : Spectrogram) : ℕ := sp.cols.length

/-- The clamp `if frame_idx >= magnitude.shape[1]: frame_idx = shape[1] - 1`
shared by `get_band_values`, `get_band_waveform` and `detect_beat`. -/
def Spectrogram.clampFrame (sp : Spectrogram) (frame_idx : ℕ) : ℕ :=
  if frame_idx ≥ sp.numFrames then sp.numFrames - 1 else frame_idx

/-- The column `frame_data = self.magnitude[:, frame_idx]` after the clamp. -/
def Spectrogram.frameData (sp : Spectrogram) (frame_idx : ℕ) : List ℚ :=
  sp.cols.getD (sp.clampFrame frame_idx) []

/-- The largest magnitude of the whole spectrogram, `np.max(self.magnitude)`. -/
def Spectrogram.globalMax (sp : Spectrogram) : ℚ := listMax sp.cols.flatten

/-- One frequency band of `config.FREQUENCY_BANDS`; `saturation`/`brightness`
are absent (`none`) until a palette writes them, matching the Python dicts
which lack those keys before `_setup_bands` runs. -/
structure Band where
  name : String
  bmin : ℚ
  bmax : ℚ
  hue_offset : ℚ
  saturation : Option ℚ
  brightness : Option ℚ
deriving DecidableEq

/-- The slice `frame_data[mask]` for `mask = (frequencies >= band.min) & (frequencies <= band.max)`. -/
def bandSlice (freqs frame_data : List ℚ) (band : Band) : List ℚ :=
  ((freqs.zip frame_data).filter
    (fun p => decide (band.bmin ≤ p.1 ∧ p.1 ≤ band.bmax))).map Prod.snd

/-- Embeds `AudioProcessor.get_band_values` (src/audio_processor.py lines 85-104). -/
def get_band_values (sp : Spectrogram) (frame_idx : ℕ) (bands : List Band) : List ℚ :=
  let frame_data := sp.frameData frame_idx
  bands.map (fun band =>
    let band_data := bandSlice sp.freqs frame_data band
    if 0 < band_data.length then mean band_data else 0)

/-- Embeds `np.linspace(0, n - 1, points).astype(int)`: `points` evenly spaced values
from `0` to `n - 1`, truncated to integers (`num = 1` yields `[0]`,
`num = 0` yields `[]`, as in numpy). -/
def linspace_trunc (n points : ℕ) : List ℕ :=
  (List.range points).map (fun (i : ℕ) =>
    if points ≤ 1 then 0
    else (⌊(((n : ℚ) - 1) * (i : ℚ)) / ((points : ℚ) - 1)⌋).toNat)

/-- Embeds `AudioProcessor.get_band_waveform` (src/audio_processor.py lines 106-129);
`none` models the `IndexError` of `bands[band_idx]` on an out-of-range index. -/
def get_band_waveform (sp : Spectrogram) (frame_idx band_idx : ℕ) (bands : List Band)
    (points : ℕ) : Option (List ℚ) :=
  match bands.get? band_idx with
  | none => none
  | some band =>
    let frame_data := sp.frameData frame_idx
    let band_data := bandSlice sp.freqs frame_data band
    if band_data.length = 0 then some (List.replicate points 0)
    else
      let indices := linspace_trunc band_data.length points
      let max_val := if 0 < sp.globalMax then sp.globalMax else 1
      some (indices.map (fun k => band_data.getD k 0 / max_val))

/-- The mutable state of `BeatDetector` (`self.prev_energy`, `self.beat_intensity`). -/
structure BeatState where
  prev_energy : ℚ
  beat_intensity : ℚ

/-- Initial state from `BeatDetector.__init__`: both fields start at 0. -/
def BeatState.start : BeatState := ⟨0, 0⟩

/-- The quantity `bass_energy + low_mid_energy` of `BeatDetector.detect_beat`: the sum of
magnitudes whose frequency lies in [20, 250] plus those in [250, 1000], at the
clamped frame index. -/
def lowBandEnergy (sp : Spectrogram) (frame_idx : ℕ) : ℚ :=
  let pairs := sp.freqs.zip (sp.frameData frame_idx)
  let bass_energy :=
    ((pairs.filter (fun p => decide (20 ≤ p.1 ∧ p.1 ≤ 250))).map Prod.snd).sum
  let low_mid_energy :=
    ((pairs.filter (fun p => decide (250 ≤ p.1 ∧ p.1 ≤ 1000))).map Prod.snd).sum
  bass_energy + low_mid_energy

/-- The per-call reference `np.sum(magnitude[:, :]) / magnitude.shape[1]`
energy of `detect_beat`. -/
def Spectrogram.maxEnergy (sp : Spectrogram) : ℚ :=
  (sp.cols.map List.sum).sum / (sp.numFrames : ℚ)

/-- Embeds `BeatDetector.detect_beat` (src/beat_detector.py lines 14-43): returns the
updated state together with the returned intensity. -/
def detect_beat (sp : Spectrogram) (frame_idx : ℕ) (s : BeatState) : BeatState × ℚ :=
  let total_energy := lowBandEnergy sp frame_idx
  let energy_change := total_energy - s.prev_energy
  let threshold := sp.maxEnergy * 0.3
  let beat_intensity :=
    if energy_change > threshold then min 1 (energy_change / (threshold * 2))
    else s.beat_intensity * 0.7
  (⟨total_energy, beat_intensity⟩, beat_intensity)

/-- A sequence of `detect_beat` calls starting from the freshly constructed
detector state. -/
def runBeat (sp : Spectrogram) (frame_idxs : List ℕ) : BeatState :=
  frame_idxs.foldl (fun s i => (detect_beat sp i s).1) BeatState.start

/-- The volume-intensity computation of `MusicVisualizer.render_frame`
(src/visualizer.py lines 116-119): mean of the band values divided by the
global maximum magnitude, with `1` substituted for a non-positive maximum. -/
def volume_intensity (sp : Spectrogram) (frame_idx : ℕ) (bands : List Band) : ℚ :=
  let band_values := get_band_values sp frame_idx bands
  let avg_volume := if 0 < band_values.length then mean band_values else 0
  let max_possible := if 0 < sp.globalMax then sp.globalMax else 1
  avg_volume / max_possible

/-- The constant `config.HUE_SHIFT_BASE`. -/
def HUE_SHIFT_BASE : ℚ := 0.5

/-- The per-frame hue advance of `render_frame` (src/visualizer.py line 132):
`self.hue_offset = (self.hue_offset + HUE_SHIFT_BASE + volume_intensity) % 360`. -/
def hue_update (hue_offset volume : ℚ) : ℚ :=
  pymod (hue_offset + HUE_SHIFT_BASE + volume) 360

/-- The hue offset after a sequence of per-frame updates, starting from the
initial `self.hue_offset = 0`. -/
def hueRun (volumes : List ℚ) : ℚ := volumes.foldl hue_update 0

/-- One 8-bit RGB pixel of a numpy image array. -/
structure RGB where
  r : ℕ
  g : ℕ
  b : ℕ
deriving DecidableEq

/-- The channel sum `waveform_array.sum(axis=2)` at one pixel. -/
def rgbSum (p : RGB) : ℕ := p.r + p.g + p.b

/-- The cut-out composite of `render_frame` (src/visualizer.py lines 184-189):
`mask = (waveform_array.sum(axis=2) > 0); img_array[mask] = waveform_array[mask]`,
expressed pixelwise over images as functions from coordinates to pixels. -/
def compositeWaveform (img waveform : ℕ × ℕ → RGB) : ℕ × ℕ → RGB :=
  fun q => if 0 < rgbSum (waveform q) then waveform q else img q

/-- Embeds `EffectsRenderer.hsv_to_rgb` (src/effects.py lines 32-58). -/
def hsv_to_rgb (h s v : ℚ) : ℤ × ℤ × ℤ :=
  let hm := pymod h 360
  let c := v * s
  let x := c * (1 - |pymod (hm / 60) 2 - 1|)
  let m := v - c
  let rgb : ℚ × ℚ × ℚ :=
    if hm < 60 then (c, x, 0)
    else if hm < 120 then (x, c, 0)
    else if hm < 180 then (0, c, x)
    else if hm < 240 then (0, x, c)
    else if hm < 300 then (x, 0, c)
    else (c, 0, x)
  (pyint (min 255 ((rgb.1 + m) * 255 * 1.2)),
   pyint (min 255 ((rgb.2.1 + m) * 255 * 1.2)),
   pyint (min 255 ((rgb.2.2 + m) * 255 * 1.2)))

/-- The table `config.FREQUENCY_BANDS`: the 8 default bands; the Python dicts carry no
saturation or brightness keys. -/
def FREQUENCY_BANDS : List Band :=
  [⟨"Sub-Bass", 20, 40, 0, none, none⟩,
   ⟨"Bass", 40, 80, 45, none, none⟩,
   ⟨"Low-Bass", 80, 100, 90, none, none⟩,
   ⟨"Low-Mid", 100, 200, 135, none, none⟩,
   ⟨"Mid", 200, 400, 180, none, none⟩,
   ⟨"Upper-Mid", 400, 600, 225, none, none⟩,
   ⟨"High-Mid", 600, 800, 270, none, none⟩,
   ⟨"Presence", 800, 1000, 315, none, none⟩]

/-- One entry of `config.COLOR_PALETTES`. -/
structure Palette where
  pname : String
  colors : List ℚ
  saturation : ℚ
  brightness : ℚ

/-- The table `config.COLOR_PALETTES`: the fixed palette dictionary, keyed by name. -/
def COLOR_PALETTES : List (String × Palette) :=
  [("rainbow", ⟨"Rainbow", [0, 45, 90, 135, 180, 225, 270, 315], 1, 1⟩),
   ("spring", ⟨"Spring", [80, 100, 120, 140, 280, 300, 320, 340], 4/5, 19/20⟩),
   ("summer", ⟨"Summer", [30, 45, 60, 180, 200, 220, 240, 260], 1, 1⟩),
   ("autumn", ⟨"Autumn", [0, 15, 30, 35, 40, 25, 20, 10], 9/10, 17/20⟩),
   ("winter", ⟨"Winter", [180, 200, 220, 240, 260, 200, 190, 210], 7/10, 9/10⟩),
   ("ice", ⟨"Ice", [180, 190, 200, 210, 220, 200, 195, 205], 1/2, 1⟩),
   ("fire", ⟨"Fire", [0, 10, 20, 30, 40, 25, 15, 35], 1, 19/20⟩),
   ("water", ⟨"Water", [160, 170, 180, 190, 150, 165, 175, 185], 4/5, 9/10⟩),
   ("earth", ⟨"Earth", [25, 30, 35, 40, 45, 50, 55, 60], 3/5, 7/10⟩)]

/-- The lookup `self.color_palette in COLOR_PALETTES` / `COLOR_PALETTES[name]`. -/
def lookupPalette (color_palette : String) : Option Palette :=
  (COLOR_PALETTES.find? (fun p => p.1 == color_palette)).map Prod.snd

/-- Embeds `MusicVisualizer._setup_bands` (src/visualizer.py lines 83-99): deep-copies
`FREQUENCY_BANDS`; a known palette overwrites hue (cyclically), saturation and
brightness; an unknown palette only sets saturation and brightness to 1.0. -/
def setup_bands (color_palette : String) : List Band :=
  match lookupPalette color_palette with
  | some palette =>
      FREQUENCY_BANDS.mapIdx (fun i band =>
        { band with
          hue_offset := palette.colors.getD (i % palette.colors.length) 0
          saturation := some palette.saturation
          brightness := some palette.brightness })
  | none =>
      FREQUENCY_BANDS.map (fun band =>
        { band with saturation := some 1, brightness := some 1 })

/-- The local `distortion` of `MusicVisualizer._get_x_rotation_matrix` and
`_get_y_rotation_matrix` (src/visualizer.py lines 101-111): `0.3 * sin(2*angle)`. -/
noncomputable def waveform_xy_distortion (angle : ℝ) : ℝ := 0.3 * Real.sin (angle * 2)

/-- Embeds `MusicVisualizer._get_x_rotation_matrix`: the perspective-transform
coefficients for the waveform's x rotation mode. -/
noncomputable def get_x_rotation_matrix (angle height : ℝ) :
    ℝ × ℝ × ℝ × ℝ × ℝ × ℝ × ℝ × ℝ :=
  (1, 0, 0, waveform_xy_distortion angle, 1,
   -height * waveform_xy_distortion angle / 2, 0, 0)

/-- Embeds `MusicVisualizer._get_y_rotation_matrix`. -/
noncomputable def get_y_rotation_matrix (angle width : ℝ) :
    ℝ × ℝ × ℝ × ℝ × ℝ × ℝ × ℝ × ℝ :=
  (1, waveform_xy_distortion angle, -width * waveform_xy_distortion angle / 2,
   0, 1, 0, 0, 0)

/-- The local `distortion` of the x/y branches of
`EffectsRenderer.draw_cover_and_rings` (src/effects.py lines 255-266):
`0.6 + 0.4 * cos(2*rotation)`. -/
noncomputable def ring_distortion (rotation : ℝ) : ℝ := 0.6 + 0.4 * Real.cos (rotation * 2)

/-- Python `int(...)` on a real. -/
noncomputable def pyintR (x : ℝ) : ℤ := if 0 ≤ x then ⌊x⌋ else ⌈x⌉

/-- The `(shape_width, shape_height)` pair chosen by `draw_cover_and_rings`
for one ring of size `ring_size` under the given ring-rotation mode
(src/effects.py lines 255-266). -/
noncomputable def ringShapeDims (ring_rot : String) (rotation : ℝ) (ring_size : ℤ) :
    ℤ × ℤ :=
  if ring_rot = "x" then
    (ring_size, pyintR ((ring_size : ℝ) * ring_distortion rotation))
  else if ring_rot = "y" then
    (pyintR ((ring_size : ℝ) * ring_distortion rotation), ring_size)
  else (ring_size, ring_size)

/-- A small concrete spectrogram (two bins at 100 Hz and 500 Hz, two frames)
used to instantiate hypotheses of the claim theorems. -/
def sampleSp : Spectrogram where
  freqs := [100, 500]
  cols := [[1, 2], [3, 4]]
  freqs_ne := by decide
  cols_ne := by decide
  cols_len := by decide

/-- An all-zero (silent) concrete spectrogram. -/
def zeroSp : Spectrogram where
  freqs := [100]
  cols := [[0]]
  freqs_ne := by decide
  cols_ne := by decide
  cols_len := by decide

lemma pymod_nonneg (x m : ℚ) (hm : 0 < m) : 0 ≤ pymod x m := by
  have h : pymod x m = m * Int.fract (x / m) := by
    unfold pymod Int.fract
    field_simp
  rw [h]
  exact mul_nonneg hm.le (Int.fract_nonneg _)

lemma pymod_lt (x m : ℚ) (hm : 0 < m) : pymod x m < m := by
  have h : pymod x m = m * Int.fract (x / m) := by
    unfold pymod Int.fract
    field_simp
  rw [h]
  calc m * Int.fract (x / m) < m * 1 :=
        (mul_lt_mul_left hm).mpr (Int.fract_lt_one _)
    _ = m := mul_one m

lemma pymod_eq_self (x m : ℚ) (h0 : 0 ≤ x) (h1 : x < m) : pymod x m = x := by
  have hm : 0 < m := lt_of_le_of_lt h0 h1
  have hfloor : ⌊x / m⌋ = 0 := by
    rw [Int.floor_eq_zero_iff]
    constructor
    · exact div_nonneg h0 hm.le
    · rw [div_lt_one hm]; exact h1
  unfold pymod
  rw [hfloor]
  simp

lemma pymod_idem (x m : ℚ) (hm : 0 < m) : pymod (pymod x m) m = pymod x m :=
  pymod_eq_self _ _ (pymod_nonneg x m hm) (pymod_lt x m hm)

/-- C1: one call to `BeatDetector.detect_beat` computes the total low-band
energy as the sum of magnitudes over 20-250 Hz plus those over 250-1000 Hz at
the clamped frame index, subtracts the stored previous energy, compares the
difference against `threshold = (sum of the whole magnitude spectrogram /
number of time frames) * 0.3`, takes `min 1 (energy_change / (2*threshold))`
on attack and `0.7 * old intensity` on decay, stores the total as the new
previous energy and returns the new intensity. -/
theorem C1_detect_beat_step (sp : Spectrogram) (frame_idx : ℕ) (s : BeatState) :
    lowBandEnergy sp frame_idx =
      (((sp.freqs.zip (sp.frameData frame_idx)).filter
          (fun p => decide (20 ≤ p.1 ∧ p.1 ≤ 250))).map Prod.snd).sum +
      (((sp.freqs.zip (sp.frameData frame_idx)).filter
          (fun p => decide (250 ≤ p.1 ∧ p.1 ≤ 1000))).map Prod.snd).sum ∧
    (detect_beat sp frame_idx s).1.prev_energy = lowBandEnergy sp frame_idx ∧
    (detect_beat sp frame_idx s).2 =
      (if lowBandEnergy sp frame_idx - s.prev_energy >
          ((sp.cols.map List.sum).sum / (sp.numFrames : ℚ)) * 0.3
       then min 1 ((lowBandEnergy sp frame_idx - s.prev_energy) /
          (2 * (((sp.cols.map List.sum).sum / (sp.numFrames : ℚ)) * 0.3)))
       else s.beat_intensity * 0.7) ∧
    (detect_beat sp frame_idx s).1.beat_intensity = (detect_beat sp frame_idx s).2 := by
  refine ⟨rfl, rfl, ?_, rfl⟩
  simp only [detect_beat, Spectrogram.maxEnergy]
  rw [mul_comm (((sp.cols.map List.sum).sum / (sp.numFrames : ℚ)) * 0.3) 2]

/-- C6: in the cut-out composite of the transformed waveform canvas, a pixel
with nonzero RGB channel sum replaces the working-image pixel, and a pixel
with zero channel sum leaves the working-image pixel unchanged. -/
theorem C6_cutout_composite (img waveform : ℕ × ℕ → RGB) (q : ℕ × ℕ) :
    (0 < rgbSum (waveform q) → compositeWaveform img waveform q = waveform q) ∧
    (rgbSum (waveform q) = 0 → compositeWaveform img waveform q = img q) := by
  constructor
  · intro h
    simp [compositeWaveform, h]
  · intro h
    simp [compositeWaveform, h]

/-- Witness for C6 at concrete images and a concrete pixel. -/
theorem C6_cutout_composite_witness :
    compositeWaveform (fun _ => ⟨9, 9, 9⟩) (fun _ => ⟨2, 3, 4⟩) (0, 0) = ⟨2, 3, 4⟩ ∧
    compositeWaveform (fun _ => ⟨9, 9, 9⟩) (fun _ => ⟨0, 0, 0⟩) (0, 0) = ⟨9, 9, 9⟩ :=
  ⟨(C6_cutout_composite (fun _ => ⟨9, 9, 9⟩) (fun _ => ⟨2, 3, 4⟩) (0, 0)).1 (by decide),
   (C6_cutout_composite (fun _ => ⟨9, 9, 9⟩) (fun _ => ⟨0, 0, 0⟩) (0, 0)).2 (by decide)⟩

lemma hueRun_aux (volumes : List ℚ) :
    ∀ h : ℚ, 0 ≤ h → h < 360 →
      0 ≤ volumes.foldl hue_update h ∧ volumes.foldl hue_update h < 360 := by
  induction volumes with
  | nil => exact fun h h0 h1 => ⟨h0, h1⟩
  | cons v vs ih =>
    intro h h0 h1
    rw [List.foldl_cons]
    exact ih (hue_update h v)
      (pymod_nonneg _ 360 (by norm_num)) (pymod_lt _ 360 (by norm_num))

/-- C7: starting from `hue_offset = 0`, after any number of per-frame updates
`hue_offset = (hue_offset + 0.5 + volume) % 360` with nonnegative volumes, the
hue offset stays in `[0, 360)`. -/
theorem C7_hue_offset_range (volumes : List ℚ) (hv : ∀ v ∈ volumes, 0 ≤ v) :
    0 ≤ hueRun volumes ∧ hueRun volumes < 360 :=
  hueRun_aux volumes 0 le_rfl (by norm_num)

/-- Witness for C7 on a concrete volume sequence. -/
theorem C7_hue_offset_range_witness :
    (∀ v ∈ [(1 : ℚ), 2, 0], 0 ≤ v) ∧
    (0 ≤ hueRun [(1 : ℚ), 2, 0] ∧ hueRun [(1 : ℚ), 2, 0] < 360) :=
  ⟨by norm_num, C7_hue_offset_range [(1 : ℚ), 2, 0] (by norm_num)⟩

lemma numFrames_pos (sp : Spectrogram) : 0 < sp.numFrames :=
  List.length_pos.mpr sp.cols_ne

lemma frameData_clamp (sp : Spectrogram) (frame_idx : ℕ) (h : frame_idx ≥ sp.numFrames) :
    sp.frameData frame_idx = sp.frameData (sp.numFrames - 1) := by
  have hpos := numFrames_pos sp
  unfold Spectrogram.frameData Spectrogram.clampFrame
  rw [if_pos h, if_neg (by omega)]

/-- C3: for every frame index at or past the spectrogram's frame count,
`get_band_values` and `get_band_waveform` return exactly what they return at
the last valid frame index, and `get_band_waveform` yields a value (no
exception) whenever the band index is in range. -/
theorem C3_frame_clamping (sp : Spectrogram) (bands : List Band)
    (frame_idx band_idx points : ℕ) (hge : frame_idx ≥ sp.numFrames) :
    get_band_values sp frame_idx bands = get_band_values sp (sp.numFrames - 1) bands ∧
    get_band_waveform sp frame_idx band_idx bands points
      = get_band_waveform sp (sp.numFrames - 1) band_idx bands points ∧
    (band_idx < bands.length →
      (get_band_waveform sp frame_idx band_idx bands points).isSome) := by
  have hfd := frameData_clamp sp frame_idx hge
  refine ⟨?_, ?_, ?_⟩
  · unfold get_band_values
    rw [hfd]
  · unfold get_band_waveform
    rw [hfd]
  · intro hb
    obtain ⟨band, hget⟩ : ∃ b, bands.get? band_idx = some b := by
      cases hcb : bands.get? band_idx with
      | none =>
          have := List.get?_eq_none.mp hcb
          omega
      | some b => exact ⟨b, rfl⟩
    simp only [get_band_waveform, hget]
    split <;> rfl

/-- Witness for C3 at a concrete spectrogram, band list and frame index. -/
theorem C3_frame_clamping_witness :
    7 ≥ sampleSp.numFrames ∧
    (get_band_values sampleSp 7 FREQUENCY_BANDS
        = get_band_values sampleSp (sampleSp.numFrames - 1) FREQUENCY_BANDS ∧
     get_band_waveform sampleSp 7 0 FREQUENCY_BANDS 5
        = get_band_waveform sampleSp (sampleSp.numFrames - 1) 0 FREQUENCY_BANDS 5 ∧
     (0 < FREQUENCY_BANDS.length →
        (get_band_waveform sampleSp 7 0 FREQUENCY_BANDS 5).isSome)) :=
  ⟨by decide, C3_frame_clamping sampleSp FREQUENCY_BANDS 7 0 5 (by decide)⟩

lemma frameData_mem (sp : Spectrogram) (frame_idx : ℕ) :
    sp.frameData frame_idx ∈ sp.cols := by
  have hpos := numFrames_pos sp
  have hlt : sp.clampFrame frame_idx < sp.cols.length := by
    unfold Spectrogram.clampFrame Spectrogram.numFrames at *
    split <;> omega
  unfold Spectrogram.frameData
  rw [List.getD_eq_getElem _ _ hlt]
  exact List.getElem_mem hlt

/-- C8: with an all-zero magnitude spectrogram (silent waveform), the
volume-intensity computation of `render_frame` returns exactly 0 (and, being a
total function of the embedded state, raises nothing). -/
theorem C8_silent_volume (sp : Spectrogram) (frame_idx : ℕ) (bands : List Band)
    (hz : ∀ c ∈ sp.cols, ∀ x ∈ c, x = 0) :
    volume_intensity sp frame_idx bands = 0 := by
  have hfd : ∀ x ∈ sp.frameData frame_idx, x = 0 := hz _ (frameData_mem sp frame_idx)
  have hbv : ∀ y ∈ get_band_values sp frame_idx bands, y = 0 := by
    intro y hy
    unfold get_band_values at hy
    simp only [List.mem_map] at hy
    obtain ⟨band, _, hband⟩ := hy
    have hsl : ∀ z ∈ bandSlice sp.freqs (sp.frameData frame_idx) band, z = 0 := by
      intro z hzz
      unfold bandSlice at hzz
      simp only [List.mem_map, List.mem_filter] at hzz
      obtain ⟨⟨a, b⟩, ⟨hmem, _⟩, hzb⟩ := hzz
      have hb2 := (List.of_mem_zip hmem).2
      rw [← hzb]
      exact hfd b hb2
    rw [← hband]
    split
    · unfold mean
      rw [List.sum_eq_zero hsl]
      exact zero_div _
    · rfl
  have hmean0 : mean (get_band_values sp frame_idx bands) = 0 := by
    unfold mean
    rw [List.sum_eq_zero hbv]
    exact zero_div _
  have havg : (if 0 < (get_band_values sp frame_idx bands).length
      then mean (get_band_values sp frame_idx bands) else 0) = 0 := by
    split
    · exact hmean0
    · rfl
  simp only [volume_intensity]
  rw [havg]
  exact zero_div _

/-- Witness for C8 on a concrete all-zero spectrogram. -/
theorem C8_silent_volume_witness :
    (∀ c ∈ zeroSp.cols, ∀ x ∈ c, x = 0) ∧
    volume_intensity zeroSp 0 FREQUENCY_BANDS = 0 :=
  ⟨by decide, C8_silent_volume zeroSp 0 FREQUENCY_BANDS (by decide)⟩

lemma pyint_bounds (q : ℚ) (h0 : 0 ≤ q) (h255 : q ≤ 255) :
    0 ≤ pyint q ∧ pyint q ≤ 255 := by
  unfold pyint
  rw [if_pos h0]
  constructor
  · exact Int.floor_nonneg.mpr h0
  · have hq : (⌊q⌋ : ℚ) ≤ 255 := le_trans (Int.floor_le q) h255
    exact_mod_cast hq

lemma channel_range (q : ℚ) (h0 : 0 ≤ q) (h1 : q ≤ 1) :
    0 ≤ pyint (min 255 (q * 255 * 1.2)) ∧ pyint (min 255 (q * 255 * 1.2)) ≤ 255 := by
  apply pyint_bounds
  · refine le_min (by norm_num) ?_
    have := mul_nonneg (mul_nonneg h0 (by norm_num : (0:ℚ) ≤ 255)) (by norm_num : (0:ℚ) ≤ 1.2)
    exact this
  · exact min_le_left _ _

/-- C10: `hsv_to_rgb` is total over any rational hue and saturation/brightness
in [0,1]: it first reduces the hue modulo 360, and despite the 1.2 vibrancy
boost every returned channel is an integer in [0, 255]. -/
theorem C10_hsv_to_rgb_range (h s v : ℚ)
    (hs0 : 0 ≤ s) (hs1 : s ≤ 1) (hv0 : 0 ≤ v) (hv1 : v ≤ 1) :
    hsv_to_rgb h s v = hsv_to_rgb (pymod h 360) s v ∧
    (0 ≤ (hsv_to_rgb h s v).1 ∧ (hsv_to_rgb h s v).1 ≤ 255) ∧
    (0 ≤ (hsv_to_rgb h s v).2.1 ∧ (hsv_to_rgb h s v).2.1 ≤ 255) ∧
    (0 ≤ (hsv_to_rgb h s v).2.2 ∧ (hsv_to_rgb h s v).2.2 ≤ 255) := by
  refine ⟨?_, ?_⟩
  · simp only [hsv_to_rgb, pymod_idem h 360 (by norm_num)]
  · simp only [hsv_to_rgb]
    set t := pymod (pymod h 360 / 60) 2 with hts
    have ht0 : 0 ≤ t := pymod_nonneg _ _ (by norm_num)
    have ht2 : t < 2 := pymod_lt _ _ (by norm_num)
    set A := |t - 1| with hAs
    have hA0 : 0 ≤ A := abs_nonneg _
    have hA1 : A ≤ 1 := abs_le.mpr ⟨by linarith, by linarith⟩
    have hcs : 0 ≤ v * s := mul_nonneg hv0 hs0
    have hcv : v * s ≤ v := mul_le_of_le_one_right hv0 hs1
    have hx0 : 0 ≤ v * s * (1 - A) := mul_nonneg hcs (by linarith)
    have hxc : v * s * (1 - A) ≤ v * s := mul_le_of_le_one_right hcs (by linarith)
    split_ifs <;> dsimp only <;>
      exact ⟨channel_range _ (by linarith) (by linarith),
             channel_range _ (by linarith) (by linarith),
             channel_range _ (by linarith) (by linarith)⟩

/-- Witness for C10 at a negative out-of-range hue. -/
theorem C10_hsv_to_rgb_range_witness :
    ((0:ℚ) ≤ 1 ∧ (1:ℚ) ≤ 1) ∧
    (hsv_to_rgb (-30) 1 1 = hsv_to_rgb (pymod (-30) 360) 1 1 ∧
     (0 ≤ (hsv_to_rgb (-30) 1 1).1 ∧ (hsv_to_rgb (-30) 1 1).1 ≤ 255) ∧
     (0 ≤ (hsv_to_rgb (-30) 1 1).2.1 ∧ (hsv_to_rgb (-30) 1 1).2.1 ≤ 255) ∧
     (0 ≤ (hsv_to_rgb (-30) 1 1).2.2 ∧ (hsv_to_rgb (-30) 1 1).2.2 ≤ 255)) :=
  ⟨⟨by norm_num, le_rfl⟩,
   C10_hsv_to_rgb_range (-30) 1 1 (by norm_num) le_rfl (by norm_num) le_rfl⟩

lemma maxEnergy_nonneg (sp : Spectrogram) (hnn : ∀ c ∈ sp.cols, ∀ x ∈ c, 0 ≤ x) :
    0 ≤ sp.maxEnergy := by
  unfold Spectrogram.maxEnergy
  apply div_nonneg
  · apply List.sum_nonneg
    intro x hx
    simp only [List.mem_map] at hx
    obtain ⟨c, hc, rfl⟩ := hx
    exact List.sum_nonneg (hnn c hc)
  · exact_mod_cast Nat.zero_le _

lemma detect_beat_intensity_mem (sp : Spectrogram) (frame_idx : ℕ) (s : BeatState)
    (hnn : ∀ c ∈ sp.cols, ∀ x ∈ c, 0 ≤ x)
    (h0 : 0 ≤ s.beat_intensity) (h1 : s.beat_intensity ≤ 1) :
    0 ≤ (detect_beat sp frame_idx s).1.beat_intensity ∧
      (detect_beat sp frame_idx s).1.beat_intensity ≤ 1 := by
  have hth : 0 ≤ sp.maxEnergy * 0.3 := mul_nonneg (maxEnergy_nonneg sp hnn) (by norm_num)
  simp only [detect_beat]
  split
  case isTrue hgt =>
    constructor
    · exact le_min zero_le_one (div_nonneg (by linarith) (by linarith))
    · exact min_le_left _ _
  case isFalse hle =>
    constructor
    · exact mul_nonneg h0 (by norm_num)
    · nlinarith

lemma runBeat_intensity_mem (sp : Spectrogram)
    (hnn : ∀ c ∈ sp.cols, ∀ x ∈ c, 0 ≤ x) (frame_idxs : List ℕ) :
    0 ≤ (runBeat sp frame_idxs).beat_intensity ∧
      (runBeat sp frame_idxs).beat_intensity ≤ 1 := by
  suffices haux : ∀ (idxs : List ℕ) (s : BeatState),
      0 ≤ s.beat_intensity → s.beat_intensity ≤ 1 →
      0 ≤ (idxs.foldl (fun s i => (detect_beat sp i s).1) s).beat_intensity ∧
        (idxs.foldl (fun s i => (detect_beat sp i s).1) s).beat_intensity ≤ 1 by
    exact haux frame_idxs BeatState.start le_rfl zero_le_one
  intro idxs
  induction idxs with
  | nil => exact fun s h0 h1 => ⟨h0, h1⟩
  | cons i rest ih =>
    intro s h0 h1
    rw [List.foldl_cons]
    obtain ⟨g0, g1⟩ := detect_beat_intensity_mem sp i s hnn h0 h1
    exact ih _ g0 g1

lemma runBeat_append (sp : Spectrogram) (l : List ℕ) (j : ℕ) :
    runBeat sp (l ++ [j]) = (detect_beat sp j (runBeat sp l)).1 := by
  unfold runBeat
  rw [List.foldl_append]
  rfl

lemma runBeat_replicate_prev (sp : Spectrogram) (j n : ℕ) :
    (runBeat sp (List.replicate (n + 1) j)).prev_energy = lowBandEnergy sp j := by
  rw [List.replicate_succ', runBeat_append]
  rfl

lemma detect_beat_decay (sp : Spectrogram) (j : ℕ) (s : BeatState)
    (hnn : ∀ c ∈ sp.cols, ∀ x ∈ c, 0 ≤ x)
    (hp : s.prev_energy = lowBandEnergy sp j) :
    (detect_beat sp j s).1.beat_intensity = s.beat_intensity * 0.7 := by
  have hth : 0 ≤ sp.maxEnergy * 0.3 := mul_nonneg (maxEnergy_nonneg sp hnn) (by norm_num)
  have hc : ¬ (lowBandEnergy sp j - s.prev_energy > sp.maxEnergy * 0.3) := by
    rw [hp, sub_self]
    linarith
  simp only [detect_beat, if_neg hc]

/-- C4: starting from the fresh detector state, along any sequence of frames
of a non-negative spectrogram the beat intensity stays in [0,1]; and with a
constant per-frame energy (repeated frame index), each call after the first
multiplies the intensity by 0.7 (geometric decay toward 0, never negative). -/
theorem C4_beat_intensity_invariant (sp : Spectrogram)
    (hnn : ∀ c ∈ sp.cols, ∀ x ∈ c, 0 ≤ x) :
    (∀ frame_idxs : List ℕ,
        0 ≤ (runBeat sp frame_idxs).beat_intensity ∧
        (runBeat sp frame_idxs).beat_intensity ≤ 1) ∧
    (∀ j n : ℕ,
        (runBeat sp (List.replicate (n + 2) j)).beat_intensity
          = 0.7 * (runBeat sp (List.replicate (n + 1) j)).beat_intensity) := by
  refine ⟨runBeat_intensity_mem sp hnn, ?_⟩
  intro j n
  have hsplit : List.replicate (n + 2) j = List.replicate (n + 1) j ++ [j] :=
    List.replicate_succ' ..
  rw [hsplit, runBeat_append,
    detect_beat_decay sp j _ hnn (runBeat_replicate_prev sp j n), mul_comm]

/-- Witness for C4 on a concrete non-negative spectrogram. -/
theorem C4_beat_intensity_invariant_witness :
    (∀ c ∈ sampleSp.cols, ∀ x ∈ c, 0 ≤ x) ∧
    (0 ≤ (runBeat sampleSp [0, 1, 5]).beat_intensity ∧
      (runBeat sampleSp [0, 1, 5]).beat_intensity ≤ 1) ∧
    (runBeat sampleSp (List.replicate 3 0)).beat_intensity
      = 0.7 * (runBeat sampleSp (List.replicate 2 0)).beat_intensity :=
  ⟨by decide,
   (C4_beat_intensity_invariant sampleSp (by decide)).1 [0, 1, 5],
   (C4_beat_intensity_invariant sampleSp (by decide)).2 0 1⟩

lemma linspace_trunc_length (n points : ℕ) : (linspace_trunc n points).length = points := by
  simp [linspace_trunc]

lemma linspace_trunc_lt (n points : ℕ) (hn : 0 < n) :
    ∀ k ∈ linspace_trunc n points, k < n := by
  intro k hk
  unfold linspace_trunc at hk
  simp only [List.mem_map, List.mem_range] at hk
  obtain ⟨i, hi, hk⟩ := hk
  by_cases hp : points ≤ 1
  · rw [if_pos hp] at hk
    omega
  · rw [if_neg hp] at hk
    have h1p : 1 ≤ points := by omega
    have hile : i ≤ points - 1 := by omega
    have hiq : (i : ℚ) ≤ (points : ℚ) - 1 := by
      have hcast : (i : ℚ) ≤ ((points - 1 : ℕ) : ℚ) := by exact_mod_cast hile
      rwa [Nat.cast_sub h1p, Nat.cast_one] at hcast
    have hd : (0 : ℚ) < (points : ℚ) - 1 := by
      have h2p : (2 : ℕ) ≤ points := by omega
      have : (2 : ℚ) ≤ (points : ℚ) := by exact_mod_cast h2p
      linarith
    have hn1 : (0 : ℚ) ≤ (n : ℚ) - 1 := by
      have : (1 : ℚ) ≤ (n : ℚ) := by exact_mod_cast hn
      linarith
    have hq : ((n : ℚ) - 1) * (i : ℚ) / ((points : ℚ) - 1) ≤ (n : ℚ) - 1 := by
      rw [div_le_iff₀ hd]
      exact mul_le_mul_of_nonneg_left hiq hn1
    have hfl : ⌊((n : ℚ) - 1) * (i : ℚ) / ((points : ℚ) - 1)⌋ ≤ (n : ℤ) - 1 := by
      have hcast : ((n : ℚ) - 1) = (((n : ℤ) - 1 : ℤ) : ℚ) := by push_cast; ring
      calc ⌊((n : ℚ) - 1) * (i : ℚ) / ((points : ℚ) - 1)⌋
          ≤ ⌊(n : ℚ) - 1⌋ := Int.floor_le_floor hq
        _ = (n : ℤ) - 1 := by rw [hcast, Int.floor_intCast]
    subst hk
    omega

/-- C5: for an in-range band index, `get_band_waveform` yields a value of
exactly `points` entries: all zeros when no frequency bin falls in the band,
otherwise the nearest-index (truncated linspace) selection from the band's
slice, each divided by the global maximum magnitude (with 1 substituted for a
non-positive maximum); every selected index is a valid index of the slice. -/
theorem C5_band_waveform_shape (sp : Spectrogram) (frame_idx band_idx points : ℕ)
    (bands : List Band) (hb : band_idx < bands.length) :
    ∃ w, get_band_waveform sp frame_idx band_idx bands points = some w ∧
      w.length = points ∧
      ((bandSlice sp.freqs (sp.frameData frame_idx) (bands.get ⟨band_idx, hb⟩)).length = 0 →
        w = List.replicate points 0) ∧
      (0 < (bandSlice sp.freqs (sp.frameData frame_idx) (bands.get ⟨band_idx, hb⟩)).length →
        (∀ k ∈ linspace_trunc
            (bandSlice sp.freqs (sp.frameData frame_idx) (bands.get ⟨band_idx, hb⟩)).length
            points,
          k < (bandSlice sp.freqs (sp.frameData frame_idx) (bands.get ⟨band_idx, hb⟩)).length) ∧
        w = (linspace_trunc
            (bandSlice sp.freqs (sp.frameData frame_idx) (bands.get ⟨band_idx, hb⟩)).length
            points).map
          (fun k =>
            (bandSlice sp.freqs (sp.frameData frame_idx) (bands.get ⟨band_idx, hb⟩)).getD k 0 /
            (if 0 < sp.globalMax then sp.globalMax else 1))) := by
  have hget : bands.get? band_idx = some (bands.get ⟨band_idx, hb⟩) := List.get?_eq_get hb
  simp only [get_band_waveform, hget]
  by_cases hd : (bandSlice sp.freqs (sp.frameData frame_idx) (bands.get ⟨band_idx, hb⟩)).length = 0
  · rw [if_pos hd]
    exact ⟨_, rfl, List.length_replicate .., fun _ => rfl, fun hpos => absurd hd (by omega)⟩
  · rw [if_neg hd]
    refine ⟨_, rfl, ?_, fun h => absurd h hd, ?_⟩
    · rw [List.length_map, linspace_trunc_length]
    · intro hpos
      exact ⟨linspace_trunc_lt _ _ hpos, rfl⟩

/-- Witness for C5 on a concrete spectrogram and band list. -/
theorem C5_band_waveform_shape_witness :
    0 < FREQUENCY_BANDS.length ∧
    (∃ w, get_band_waveform sampleSp 0 0 FREQUENCY_BANDS 4 = some w ∧
      w.length = 4 ∧
      ((bandSlice sampleSp.freqs (sampleSp.frameData 0)
          (FREQUENCY_BANDS.get ⟨0, by decide⟩)).length = 0 →
        w = List.replicate 4 0) ∧
      (0 < (bandSlice sampleSp.freqs (sampleSp.frameData 0)
          (FREQUENCY_BANDS.get ⟨0, by decide⟩)).length →
        (∀ k ∈ linspace_trunc
            (bandSlice sampleSp.freqs (sampleSp.frameData 0)
              (FREQUENCY_BANDS.get ⟨0, by decide⟩)).length 4,
          k < (bandSlice sampleSp.freqs (sampleSp.frameData 0)
              (FREQUENCY_BANDS.get ⟨0, by decide⟩)).length) ∧
        w = (linspace_trunc
            (bandSlice sampleSp.freqs (sampleSp.frameData 0)
              (FREQUENCY_BANDS.get ⟨0, by decide⟩)).length 4).map
          (fun k =>
            (bandSlice sampleSp.freqs (sampleSp.frameData 0)
              (FREQUENCY_BANDS.get ⟨0, by decide⟩)).getD k 0 /
            (if 0 < sampleSp.globalMax then sampleSp.globalMax else 1)))) :=
  ⟨by decide, C5_band_waveform_shape sampleSp 0 0 4 FREQUENCY_BANDS (by decide)⟩

/-- C9: constructing the visualizer with a palette name outside the fixed
palette table is accepted: `_setup_bands` keeps every band's default hue
offset (0, 45, ..., 315) and sets saturation and brightness to 1.0, which is
exactly the band list the `rainbow` palette produces. -/
theorem C9_unknown_palette (color_palette : String)
    (hnf : lookupPalette color_palette = none) :
    setup_bands color_palette = setup_bands "rainbow" ∧
    (setup_bands color_palette).map Band.hue_offset
      = [0, 45, 90, 135, 180, 225, 270, 315] ∧
    ∀ band ∈ setup_bands color_palette,
      band.saturation = some 1 ∧ band.brightness = some 1 := by
  have hsetup : setup_bands color_palette
      = FREQUENCY_BANDS.map (fun band =>
          { band with saturation := some 1, brightness := some 1 }) := by
    unfold setup_bands
    rw [hnf]
  rw [hsetup]
  refine ⟨?_, ?_, ?_⟩
  · decide
  · decide
  · decide

/-- Witness for C9 at the concrete unknown palette name "neon". -/
theorem C9_unknown_palette_witness :
    lookupPalette "neon" = none ∧
    (setup_bands "neon" = setup_bands "rainbow" ∧
     (setup_bands "neon").map Band.hue_offset
        = [0, 45, 90, 135, 180, 225, 270, 315] ∧
     ∀ band ∈ setup_bands "neon",
        band.saturation = some 1 ∧ band.brightness = some 1) :=
  ⟨rfl, C9_unknown_palette "neon" rfl⟩

/-- C2 counterexample: at angle 0 the ring's x/y squeeze factor is
`0.6 + 0.4*cos 0 = 1` while the waveform's x/y distortion magnitude is
`0.3*sin 0 = 0`, so the two modes do not apply the same formula. -/
theorem C2_ring_vs_waveform_counterexample :
    ring_distortion 0 ≠ waveform_xy_distortion 0 := by
  unfold ring_distortion waveform_xy_distortion
  rw [zero_mul, Real.sin_zero, Real.cos_zero]
  norm_num

/-- C2 (amended): the x/y ring-rotation modes scale the ring's height (x) or
width (y) by the squeeze factor `0.6 + 0.4*cos(2*rotation)`, while the
waveform's x/y rotation mode is a perspective shear of distortion magnitude
`0.3*sin(2*angle)`; the two formulas never coincide (the ring factor is
always strictly larger). -/
theorem C2_ring_vs_waveform_amended :
    (∀ (rotation : ℝ) (ring_size : ℤ),
        ringShapeDims "x" rotation ring_size
          = (ring_size, pyintR ((ring_size : ℝ) * (0.6 + 0.4 * Real.cos (rotation * 2)))) ∧
        ringShapeDims "y" rotation ring_size
          = (pyintR ((ring_size : ℝ) * (0.6 + 0.4 * Real.cos (rotation * 2))), ring_size)) ∧
    (∀ angle height : ℝ,
        get_x_rotation_matrix angle height
          = (1, 0, 0, 0.3 * Real.sin (angle * 2), 1,
             -height * (0.3 * Real.sin (angle * 2)) / 2, 0, 0)) ∧
    (∀ rotation : ℝ, waveform_xy_distortion rotation < ring_distortion rotation) := by
  refine ⟨?_, ?_, ?_⟩
  · intro rotation ring_size
    constructor
    · simp [ringShapeDims, ring_distortion]
    · simp [ringShapeDims, ring_distortion]
  · intro angle height
    rfl
  · intro rotation
    unfold waveform_xy_distortion ring_distortion
    nlinarith [Real.sin_sq_add_cos_sq (rotation * 2),
      sq_nonneg (Real.cos (rotation * 2) + 4 / 5),
      sq_nonneg (Real.sin (rotation * 2) - 3 / 5)]

end Visualizer
